import Mathlib

/-!
# Verification of the AIforEDUStudies client-side catalog

Shallow embedding of the bootstrap/normalization pipeline, the central
state store (`AppState`), and the search + category-filter pipeline of
the repository, together with theorems settling the frozen claims about
them.

JavaScript strings are modelled by Lean `String` (a wrapper around
`List Char`); the JS string operations used by the code (`trim`,
`toLowerCase`, `includes`, `split('|')`) are defined below directly on
the character list so that all proofs are elementary inductions.
-/

namespace EduStudies

/-! ## JavaScript string primitives -/

/-- Whitespace characters removed by JS `String.prototype.trim`
(the code's data only ever uses the ASCII ones). -/
def isWS (c : Char) : Bool := c = ' ' || c = '\t' || c = '\n' || c = '\r'

/-- Drop leading whitespace from a character list. -/
def dropLeadWS : List Char → List Char
  | [] => []
  | c :: t => if isWS c then dropLeadWS t else c :: t

/-- JS `s.trim()`: strip whitespace from both ends. -/
def jsTrim (s : String) : String :=
  ⟨((dropLeadWS ((dropLeadWS s.data).reverse)).reverse)⟩

/-- JS `s.toLowerCase()` (ASCII-adequate for this repository's data). -/
def jsLower (s : String) : String := ⟨s.data.map Char.toLower⟩

/-- `prefixB needle hay`: does `hay` start with `needle`? -/
def prefixB : List Char → List Char → Bool
  | [], _ => true
  | _ :: _, [] => false
  | a :: as, b :: bs => a = b && prefixB as bs

/-- `subOf needle hay`: does `needle` occur contiguously in `hay`?
(recursion on the haystack). -/
def subOf (needle : List Char) : List Char → Bool
  | [] => prefixB needle []
  | c :: t => prefixB needle (c :: t) || subOf needle t

/-- JS `hay.includes(needle)`. -/
def jsIncludes (hay needle : String) : Bool := subOf needle.data hay.data

/-- JS `s.split(sep)` for a single-character separator. Always returns a
non-empty list of pieces. -/
def splitCh (sep : Char) : List Char → List (List Char)
  | [] => [[]]
  | c :: t =>
    match splitCh sep t with
    | [] => if c = sep then [[], []] else [[c]]
    | h :: r => if c = sep then [] :: h :: r else (c :: h) :: r

/-- JS `s.split('|')`. -/
def jsSplitPipe (s : String) : List String :=
  (splitCh '|' s.data).map (fun l => ⟨l⟩)

/-! ## Data model

`Study` is the canonical normalized record (spec section 3).
`metadata.year`/`metadata.authors` are passthrough fields no claim
mentions and are not modelled. -/

structure StudyMeta where
  subjects : List String
  deriving DecidableEq, Repr

structure Study where
  id : String
  title : String
  url : String
  organization : String
  date : String
  description : String
  categories : List String
  metadata : StudyMeta
  deriving DecidableEq, Repr

/-! ## Raw input values

Raw records are untrusted string-keyed objects; each field is an
arbitrary JS value, modelled by `RawVal`. -/

/-- An element of a raw array field. Both normalizers keep an element
only when it is a truthy string (`cat && typeof cat === 'string'`), so
all non-string elements are represented by `nonStr` with their
truthiness recorded. -/
inductive RawElem where
  | str (s : String)
  | nonStr (truthy : Bool)
  deriving DecidableEq, Repr

inductive RawVal where
  /-- A missing field (JS `undefined`). -/
  | undef
  /-- JS `null`. -/
  | nullv
  | str (s : String)
  | num (n : Int)
  | list (l : List RawElem)
  deriving DecidableEq, Repr

/-- JS truthiness of a raw value (arrays are objects, hence truthy). -/
def RawVal.truthy : RawVal → Bool
  | .undef => false
  | .nullv => false
  | .str s => s ≠ ""
  | .num n => n ≠ 0
  | .list _ => true

/-- The `metadata` field of a raw record: absent, or an object with a
`subjects` field. (The JSON-string branch of the part_002 normalizer is
not exercised by any claim and is not modelled.) -/
inductive RawMeta where
  | undef
  | obj (subjects : RawVal)
  deriving DecidableEq, Repr

structure RawRecord where
  id : RawVal := .undef
  title : RawVal := .undef
  url : RawVal := .undef
  organization : RawVal := .undef
  date : RawVal := .undef
  description : RawVal := .undef
  key_findings : RawVal := .undef
  categories : RawVal := .undef
  metadata : RawMeta := .undef
  deriving DecidableEq, Repr

/-- One element of the raw array handed to a normalizer:
`null`/`undefined`/falsy primitives, truthy non-object primitives, or a
record object. -/
inductive RawEntry where
  | nullv
  | prim
  | obj (r : RawRecord)
  deriving DecidableEq, Repr

/-! ## Normalizer, bootstrap copy (part_001 `normalizeStudiesData`) -/

/-- The element coercion used by both normalizers for array-valued
`categories`/`subjects` fields: `cat && typeof cat === 'string'`. -/
def keptStr : RawElem → Option String
  | .str s => if s = "" then none else some s
  | .nonStr _ => none

/-- Category coercion of part_001 `normalizeStudiesData` (src/unnamed/part_001
lines 1055-1069): truthy array values are filtered to truthy strings and
trimmed; a truthy string becomes the one-element list of its trimmed
self (no pipe splitting); anything else yields `[]`; an empty result is
replaced by `["Uncategorized"]`. -/
def normCategories001 (v : RawVal) : List String :=
  let cats : List String :=
    if v.truthy then
      match v with
      | .list l => (l.filterMap keptStr).map jsTrim
      | .str s => [jsTrim s]
      | _ => []
    else []
  if cats = [] then ["Uncategorized"] else cats

/-- Subjects coercion of part_001 `normalizeStudiesData`: same
accept-array-or-string rule, defaulting to `[]`. (When the raw
`subjects` value is present but falsy the source leaves the falsy value
in place; that unreachable-for-normalized-data corner is modelled as
`[]` and no claim depends on it.) -/
def normSubjects001 : RawMeta → List String
  | .undef => []
  | .obj v =>
    if v.truthy then
      match v with
      | .list l => (l.filterMap keptStr).map jsTrim
      | .str s => [jsTrim s]
      | _ => []
    else []

/-- String coercion `typeof x === 'string' ? x : dflt` of part_001. -/
def strOr001 (v : RawVal) (dflt : String) : String :=
  match v with
  | .str s => s
  | _ => dflt

/-- Id coercion of part_001: string passthrough, number stringified,
otherwise a generated opaque id (the `Math.random` suffix is modelled by
a fixed opaque token since no claim depends on id uniqueness). -/
def normId001 (v : RawVal) : String :=
  match v with
  | .str s => s
  | .num n => toString n
  | _ => "generated-opaque"

/-- Record normalization of part_001 `normalizeStudiesData`
(src/unnamed/part_001 lines 1026-1085). -/
def normalizeRecord001 (r : RawRecord) : Study where
  id := normId001 r.id
  title := strOr001 r.title "Untitled Study"
  url := strOr001 r.url "#"
  organization := strOr001 r.organization "Unknown Organization"
  date := strOr001 r.date ""
  description := strOr001 r.description ""
  categories := normCategories001 r.categories
  metadata := ⟨normSubjects001 r.metadata⟩

/-- part_001 `normalizeStudiesData` (lines 1018-1086): keeps only
entries with `study !== null && typeof study === 'object'`, then
normalizes each (the `structuredClone` deep copy is the identity under
value semantics). -/
def normalizeStudiesData (entries : List RawEntry) : List Study :=
  entries.filterMap fun e =>
    match e with
    | .obj r => some (normalizeRecord001 r)
    | _ => none

/-! ## Normalizer, loader copy (src/unnamed/part_002 `normalizeStudies`) -/

/-- Category coercion of part_002 `normalizeStudies` (lines 124-153):
arrays are filtered to truthy strings and trimmed; a truthy string is
split on `'|'` (trimming pieces and dropping empties) when it contains a
pipe, and otherwise wrapped as the one-element list of its trimmed self
when that is non-empty; an empty result becomes `["Uncategorized"]`. -/
def normCategories002 (v : RawVal) : List String :=
  let cats : List String :=
    if v.truthy then
      match v with
      | .list l => (l.filterMap keptStr).map jsTrim
      | .str s =>
        if jsIncludes s "|" then ((jsSplitPipe s).map jsTrim).filter (fun c => c ≠ "")
        else if jsTrim s = "" then [] else [jsTrim s]
      | _ => []
    else []
  if cats = [] then ["Uncategorized"] else cats

/-- Truthy-or-default coercion `x || dflt` of part_002 restricted to the
string-valued outcome (a truthy non-string raw value is passed through
by the source; no claim reaches that corner and it is modelled by its
string rendering). -/
def truthyOr002 (v : RawVal) (dflt : String) : String :=
  match v with
  | .str s => if s = "" then dflt else s
  | .num n => if n = 0 then dflt else toString n
  | _ => dflt

/-- Subjects of part_002 `normalizeStudies` (lines 155-176): spread
metadata, default `[]` for falsy subjects, wrap a non-array as
`[String(subjects)]`, keep arrays (non-string elements are dropped in
the model; no claim depends on them). -/
def normSubjects002 : RawMeta → List String
  | .undef => []
  | .obj v =>
    match v with
    | .undef => []
    | .nullv => []
    | .str s => if s = "" then [] else [s]
    | .num n => if n = 0 then [] else [toString n]
    | .list l => l.filterMap fun e => match e with | .str s => some s | .nonStr _ => none

/-- Record normalization of part_002 `normalizeStudies` (lines 110-178);
`index` feeds the `study-${index}` default id. -/
def normalizeRecord002 (index : Nat) (r : RawRecord) : Study where
  id := truthyOr002 r.id ("study-" ++ toString index)
  title := truthyOr002 r.title "Untitled Study"
  url := truthyOr002 r.url "#"
  organization := truthyOr002 r.organization "Unknown Organization"
  date := truthyOr002 r.date ""
  description := truthyOr002 r.description (truthyOr002 r.key_findings "")
  categories := normCategories002 r.categories
  metadata := ⟨normSubjects002 r.metadata⟩

/-- A truthy non-object primitive reaches part_002's per-record code,
where every field access yields `undefined`. -/
def blankRecord : RawRecord := {}

/-- part_002 `normalizeStudies` (lines 96-182): falsy entries are mapped
to `null` and filtered out afterwards; every surviving entry is
normalized with its index. -/
def normalizeStudies (entries : List RawEntry) : List Study :=
  entries.enum.filterMap fun ie =>
    match ie.2 with
    | .nullv => none
    | .prim => some (normalizeRecord002 ie.1 blankRecord)
    | .obj r => some (normalizeRecord002 ie.1 r)

/-! ## Bootstrap coordinator (src/unnamed/part_001 `bootstrapApplication`) -/

def MAX_RETRIES : Nat := 3
def RETRY_DELAY : Nat := 1000

/-- One outcome of `loadStudiesData()`: a rejection, a resolution with a
non-array value, or a resolution with an array of raw entries. -/
inductive LoadOutcome where
  | err
  | nonArray
  | ok (entries : List RawEntry)
  deriving Repr

/-- A failed attempt as judged by the loop condition
`studies && Array.isArray(studies) && studies.length > 0`. -/
def failedOutcome : LoadOutcome → Bool
  | .err => true
  | .nonArray => true
  | .ok l => l = []

/-- Observable summary of one `bootstrapApplication()` run. -/
structure BootstrapRun where
  result : List Study
  loaderCalls : Nat
  waitedMs : Nat
  deriving DecidableEq, Repr

/-- The retry loop of `bootstrapApplication` (part_001 lines 975-997),
by recursion on the number of attempts still allowed. `oracle i` is what
the `i`-th `loadStudiesData()` call does. Returns the loader-call count,
the total `delay(RETRY_DELAY)` time, and the loaded entries if any
attempt succeeded; a delay is taken after a failed attempt exactly when
another attempt remains (`retries < MAX_RETRIES`). -/
def bootstrapGo (oracle : Nat → LoadOutcome) (delayMs : Nat) :
    Nat → Nat → Nat × Nat × Option (List RawEntry)
  | _, 0 => (0, 0, none)
  | attempt, left + 1 =>
    match oracle attempt with
    | .ok l =>
      if l = [] then
        let (c, w, r) := bootstrapGo oracle delayMs (attempt + 1) left
        (c + 1, (if 0 < left then delayMs else 0) + w, r)
      else (1, 0, some l)
    | _ =>
      let (c, w, r) := bootstrapGo oracle delayMs (attempt + 1) left
      (c + 1, (if 0 < left then delayMs else 0) + w, r)

/-- part_001 `bootstrapApplication` (lines 969-1011): run the retry
loop; if no attempt loaded a non-empty array, resolve with `[]`;
otherwise normalize the loaded entries with `normalizeStudiesData`.
Every loader rejection is caught inside the loop, so the function is
total (never throws or rejects). -/
def bootstrapApplication (oracle : Nat → LoadOutcome) : BootstrapRun :=
  match bootstrapGo oracle RETRY_DELAY 0 MAX_RETRIES with
  | (c, w, none) => { result := [], loaderCalls := c, waitedMs := w }
  | (c, w, some entries) =>
      { result := normalizeStudiesData entries, loaderCalls := c, waitedMs := w }

/-- The body of `bootstrapApplication` references only local variables:
there is no module-level in-flight promise (contrast `fuseLoadingPromise`
in search-engine.js). A second call made while a first run is still
pending therefore re-executes the whole body against the loader; the
work the second caller performs is again `bootstrapApplication`. -/
def bootstrapSecondCall (oracle : Nat → LoadOutcome) : BootstrapRun :=
  bootstrapApplication oracle

/-! ## Search-engine initialization (src/js/modules/search-engine.js
`initializeSearchEngine`, lines 21-79) -/

/-- Module state of search-engine.js relevant to initialization:
`fuseLoadingPromise` (the in-flight build promise, identified by an
opaque id) and a count of index builds actually started. -/
structure SearchEngineState where
  fuseLoadingPromise : Option Nat
  buildsStarted : Nat
  deriving DecidableEq, Repr

inductive InitResult where
  /-- The returned loading promise (possibly the pre-existing one). -/
  | promise (id : Nat)
  /-- `Promise.reject` for invalid/empty studies. -/
  | rejected
  deriving DecidableEq, Repr

/-- `initializeSearchEngine(studies)`: if a loading promise is already
in flight, return it unchanged; otherwise reject invalid/empty input, or
record a fresh promise (id `freshId`) and start the one build. -/
def initializeSearchEngine (st : SearchEngineState) (studies : List Study)
    (freshId : Nat) : SearchEngineState × InitResult :=
  match st.fuseLoadingPromise with
  | some p => (st, .promise p)
  | none =>
    if studies = [] then (st, .rejected)
    else ({ fuseLoadingPromise := some freshId, buildsStarted := st.buildsStarted + 1 },
          .promise freshId)

/-! ## State store (src/unnamed/part_001 `AppState`) -/

/-- Value-level model of the `AppState` singleton. Listener callbacks
are functions and are modelled by the list of event names an operation
dispatches (per-callback exception isolation in `_notifyListeners` does
not change which events fire). -/
structure AppStateModel where
  studies : List Study
  categoryFilters : List String
  subjectFilters : List String
  searchQuery : String
  viewMode : String
  initialized : Bool
  loading : Bool
  error : Option String
  deriving DecidableEq, Repr

/-- An arbitrary JS argument handed to `setStudies`. -/
inductive JSArg where
  | arr (studies : List Study)
  | nullv
  | undef
  | str (s : String)
  | num (n : Int)
  deriving DecidableEq, Repr

def JSArg.isArr : JSArg → Bool
  | .arr _ => true
  | _ => false

/-- `AppState.setStudies` (part_001 lines 1207-1239). On
`!studies || !Array.isArray(studies)` the source sets `_studies = []`,
records the validation error and emits only `'error'`. On an array it
stores a deep copy (the identity under value semantics), clears the
error, marks the store initialized and not loading, and emits
`'studies-loaded'` then `'state-changed'`. Returns the new state and the
dispatched event names in order. -/
def setStudies (st : AppStateModel) (arg : JSArg) : AppStateModel × List String :=
  match arg with
  | .arr studies =>
      ({ st with studies := studies, initialized := true, loading := false,
                 error := none },
       ["studies-loaded", "state-changed"])
  | _ =>
      ({ st with studies := [], error := some "Invalid studies data" },
       ["error"])

/-- `AppState.setViewMode` (part_001 lines 1282-1293): coerce anything
but `'card'`/`'list'` to `'card'`; no-op without events when unchanged. -/
def setViewMode (st : AppStateModel) (mode : String) : AppStateModel × List String :=
  let m := if mode ≠ "card" && mode ≠ "list" then "card" else mode
  if st.viewMode ≠ m then
    ({ st with viewMode := m }, ["view-mode-changed", "state-changed"])
  else (st, [])

/-- `AppState.toggleViewMode` (part_001 lines 1298-1302): compute the
opposite mode, store it through `setViewMode`, and return it. -/
def toggleViewMode (st : AppStateModel) : AppStateModel × List String × String :=
  let newMode := if st.viewMode = "card" then "list" else "card"
  let r := setViewMode st newMode
  (r.1, r.2, newMode)

/-! ## Search fallbacks -/

/-- search-engine.js `performSimpleSearch(query, studies)` (lines
141-163): use the `studies` parameter when non-empty, else the store's
collection (`appStudies`); return everything for an empty/whitespace
query; otherwise keep the studies with a case-insensitive substring
match of the query in title, description, organization or one of the
categories (metadata.subjects is not examined). -/
def performSimpleSearch (query : String) (studies appStudies : List Study) :
    List Study :=
  let studiesData := if studies = [] then appStudies else studies
  if query = "" || jsTrim query = "" then studiesData
  else
    let lowercaseQuery := jsLower query
    studiesData.filter fun study =>
      (study.title ≠ "" && jsIncludes (jsLower study.title) lowercaseQuery) ||
      (study.description ≠ "" && jsIncludes (jsLower study.description) lowercaseQuery) ||
      (study.organization ≠ "" && jsIncludes (jsLower study.organization) lowercaseQuery) ||
      (study.categories.any fun cat => jsIncludes (jsLower cat) lowercaseQuery)

/-- utils.js `basicSearch(studies, query)` (lines 286-338): keep the
studies with a case-insensitive substring match of the query in title,
description, organization, a category, or a metadata subject (truthiness
guards on each field as in the source). -/
def basicSearch (studies : List Study) (query : String) : List Study :=
  if query = "" then studies
  else
    let lowerQuery := jsLower query
    studies.filter fun study =>
      (study.title ≠ "" && jsIncludes (jsLower study.title) lowerQuery) ||
      (study.description ≠ "" && jsIncludes (jsLower study.description) lowerQuery) ||
      (study.organization ≠ "" && jsIncludes (jsLower study.organization) lowerQuery) ||
      (study.categories.any fun cat => cat ≠ "" && jsIncludes (jsLower cat) lowerQuery) ||
      (study.metadata.subjects.any fun subj => subj ≠ "" && jsIncludes (jsLower subj) lowerQuery)

/-- The per-(filter, category) alias conditions of the four canonical
labels, exactly the four `if` blocks of the source's inner loop. -/
def labelAliasMatch (fc sc : String) : Bool :=
  (fc = "AI Use and Perceptions" &&
    (sc = "Current AI Use and Perceptions in PK 12 & HigherEd" ||
     jsIncludes sc "AI Use" || jsIncludes sc "AI Perceptions")) ||
  (fc = "Guidelines, Training, Policies" &&
    (sc = "Current State of Guidelines, Training, and Policies" ||
     jsIncludes sc "Guidelines" || jsIncludes sc "Training" ||
     jsIncludes sc "Policies")) ||
  (fc = "Student Performance Data" &&
    (sc = "Student Performance Data" ||
     jsIncludes sc "Performance" || jsIncludes sc "Student Data")) ||
  (fc = "Workforce Trends" &&
    (sc = "Workforce Trends" || jsIncludes sc "Workforce"))

/-- `filterStudies` applied to an actual array: all studies pass when no
category filter is active; otherwise a study passes when one of its
categories matches some active filter exactly (the `Set.has` test) or
through `labelAliasMatch`. (The `typeof study.categories === 'string'`
branch handles un-normalized input and is unreachable for the normalized
studies modelled here, whose categories are always a list.) -/
def filterStudies (studies : List Study) (categoryFilters : List String) :
    List Study :=
  if categoryFilters = [] then studies
  else
    studies.filter fun study =>
      study.categories.any fun sc =>
        categoryFilters.contains sc ||
        categoryFilters.any fun fc => labelAliasMatch fc sc

/-! ## The filtered-results pipelines

The repository contains three divergent filtered-results computations:
part_001 `updateResults`, utils.js `getFilteredResults`, and
search-engine.js `getFilteredResults`. -/

/-- Stated from the spec: the five weighted search fields — title,
categories, description, metadata.subjects, organization — matched
case-insensitively by substring. -/
def specFiveFieldMatch (query : String) (study : Study) : Bool :=
  let lq := jsLower query
  jsIncludes (jsLower study.title) lq ||
  (study.categories.any fun c => jsIncludes (jsLower c) lq) ||
  jsIncludes (jsLower study.description) lq ||
  (study.metadata.subjects.any fun s => jsIncludes (jsLower s) lq) ||
  jsIncludes (jsLower study.organization) lq

/-- The same predicate without metadata.subjects (what
`performSimpleSearch` actually examines). -/
def specFourFieldMatch (query : String) (study : Study) : Bool :=
  let lq := jsLower query
  jsIncludes (jsLower study.title) lq ||
  (study.categories.any fun c => jsIncludes (jsLower c) lq) ||
  jsIncludes (jsLower study.description) lq ||
  jsIncludes (jsLower study.organization) lq

/-- Stated from the spec: split on the pipe delimiter, trim each piece,
drop empties. -/
def specSplitPipe (s : String) : List String :=
  ((jsSplitPipe s).map jsTrim).filter (fun c => c ≠ "")

structure StudyHeapStore where
  heap : Nat → Study
  studyRefs : List Nat
  categoryFilters : List String
  subjectFilters : List String
  searchQuery : String
  viewMode : String

/-- `getStudies()`: the spread copy is a fresh array of the same
references. -/
def getStudiesRefs (s : StudyHeapStore) : List Nat := s.studyRefs

/-- The study values a consumer observes through `getStudies()`. -/
def observeStudies (s : StudyHeapStore) : List Study :=
  s.studyRefs.map s.heap

/-- A caller mutates, in place, the study object behind reference `r`
that it obtained from a getter's result. -/
def writeThroughRef (s : StudyHeapStore) (r : Nat) (f : Study → Study) :
    StudyHeapStore :=
  { s with heap := fun n => if n = r then f (s.heap n) else s.heap n }

/-! ## Concrete fixtures used by counterexamples and witnesses -/

/-- A study whose only category is the legacy verbose source string. -/
def studyLegacy : Study where
  id := "1"
  title := "AI and Jobs"
  url := "#"
  organization := "ExampleOrg"
  date := "2024-05"
  description := "AI changes jobs"
  categories := ["Current AI Use and Perceptions in PK 12 & HigherEd"]
  metadata := ⟨["economics"]⟩

/-- A study whose only match for the query `"math"` is in
`metadata.subjects`. -/
def studySubj : Study where
  id := "2"
  title := "Outcomes"
  url := "#"
  organization := "Org"
  date := ""
  description := "Findings"
  categories := ["Workforce Trends"]
  metadata := ⟨["math"]⟩

/-- A store state holding one study, used against `setStudies`. -/
def stOneStudy : AppStateModel where
  studies := [studyLegacy]
  categoryFilters := []
  subjectFilters := []
  searchQuery := ""
  viewMode := "card"
  initialized := true
  loading := false
  error := none

/-- A raw record whose categories field is the string `"A|B"`. -/
def recPipe : RawRecord := { categories := .str "A|B" }

/-- A raw record with no categories field at all. -/
def recNoCat : RawRecord := {}

/-- A loader that rejects on every attempt. -/
def failOracle : Nat → LoadOutcome := fun _ => .err

/-- Search-engine module state with a build already in flight. -/
def engineInFlight : SearchEngineState where
  fuseLoadingPromise := some 7
  buildsStarted := 1

/-- A one-study heap store: reference 0 points at `studyLegacy`. -/
def heapStore0 : StudyHeapStore where
  heap := fun _ => studyLegacy
  studyRefs := [0]
  categoryFilters := []
  subjectFilters := []
  searchQuery := ""
  viewMode := "card"

/-- The caller-side in-place mutation used against the getter boundary. -/
def retitle : Study → Study := fun st => { st with title := "mutated title" }

/-- The four canonical domain labels of the filter UI. -/
def canonicalLabels : List String :=
  ["AI Use and Perceptions", "Guidelines, Training, Policies",
   "Student Performance Data", "Workforce Trends"]

/-! ## Helper lemmas: strings and booleans -/

theorem mk_data_eq (s : String) : (⟨s.data⟩ : String) = s := rfl

theorem data_eq_nil_iff (s : String) : s.data = [] ↔ s = "" := by
  cases s with
  | mk l =>
    constructor
    · intro h; rw [show ("" : String) = ⟨[]⟩ from rfl]; exact congrArg String.mk h
    · intro h; rw [show ("" : String) = ⟨[]⟩ from rfl] at h; cases h; rfl

theorem jsLower_empty_iff (s : String) : jsLower s = "" ↔ s = "" := by
  unfold jsLower
  constructor
  · intro h
    have hdata : s.data.map Char.toLower = [] := by
      have := congrArg String.data h
      simpa using this
    have : s.data = [] := List.map_eq_nil_iff.mp hdata
    exact (data_eq_nil_iff s).mp this
  · intro h; subst h; rfl

theorem subOf_nil_hay (n : List Char) (h : n ≠ []) : subOf n [] = false := by
  cases n with
  | nil => exact absurd rfl h
  | cons a t => rfl

theorem jsIncludes_empty_hay (q : String) (h : q ≠ "") : jsIncludes "" q = false := by
  unfold jsIncludes
  have hq : q.data ≠ [] := fun hc => h ((data_eq_nil_iff q).mp hc)
  have hnil : ("" : String).data = [] := rfl
  rw [hnil]
  exact subOf_nil_hay q.data hq

/-- Eliminate the truthiness guard `field && field.toLowerCase().includes(lq)`
once the (lowered) query is non-empty. -/
theorem guard_includes_elim (f lq : String) (h : lq ≠ "") :
    ((f ≠ "" : Bool) && jsIncludes (jsLower f) lq) = jsIncludes (jsLower f) lq := by
  by_cases hf : f = ""
  · subst hf
    have h0 : jsIncludes (jsLower "") lq = false := by
      have : jsLower "" = "" := rfl
      rw [this]; exact jsIncludes_empty_hay lq h
    simp [h0]
  · simp [hf]

theorem any_guard_elim (l : List String) (lq : String) (h : lq ≠ "") :
    (l.any fun c => (c ≠ "" : Bool) && jsIncludes (jsLower c) lq) =
      l.any fun c => jsIncludes (jsLower c) lq := by
  induction l with
  | nil => rfl
  | cons c t ih => simp only [List.any_cons, ih, guard_includes_elim c lq h]

theorem bool_reorder5 (a b c d e : Bool) :
    (a || b || c || d || e) = (a || d || b || e || c) := by
  cases a <;> cases b <;> cases c <;> cases d <;> cases e <;> rfl

theorem bool_reorder4 (a b c d : Bool) :
    (a || b || c || d) = (a || d || b || c) := by
  cases a <;> cases b <;> cases c <;> cases d <;> rfl

/-! ## Helper lemmas: substring and split -/

theorem prefixB_single (a : Char) (l : List Char) :
    prefixB [a] l = match l with | [] => false | c :: _ => (a = c : Bool) := by
  cases l with
  | nil => rfl
  | cons c t => simp [prefixB]

theorem subOf_single (a : Char) (l : List Char) :
    subOf [a] l = l.any fun c => c = a := by
  induction l with
  | nil => rfl
  | cons c t ih =>
    rw [show subOf [a] (c :: t) = (prefixB [a] (c :: t) || subOf [a] t) from rfl]
    rw [prefixB_single, ih]
    simp [List.any_cons, Bool.or_comm, eq_comm]

theorem splitCh_no_sep (sep : Char) (l : List Char)
    (h : (l.any fun c => c = sep) = false) : splitCh sep l = [l] := by
  induction l with
  | nil => rfl
  | cons c t ih =>
    simp only [List.any_cons, Bool.or_eq_false_iff] at h
    obtain ⟨hc, ht⟩ := h
    have hcne : ¬ c = sep := by simpa using hc
    rw [show splitCh sep (c :: t) =
          (match splitCh sep t with
           | [] => if c = sep then [[], []] else [[c]]
           | h :: r => if c = sep then [] :: h :: r else (c :: h) :: r) from rfl]
    rw [ih ht]
    simp [hcne]

theorem prefixB_map (f : Char → Char) (n h : List Char) (hp : prefixB n h = true) :
    prefixB (n.map f) (h.map f) = true := by
  induction n generalizing h with
  | nil => rfl
  | cons a as ih =>
    cases h with
    | nil => exact absurd hp (by simp [prefixB])
    | cons b bs =>
      simp only [prefixB, Bool.and_eq_true, decide_eq_true_eq] at hp
      obtain ⟨hab, hrest⟩ := hp
      simp only [List.map_cons, prefixB, Bool.and_eq_true, decide_eq_true_eq]
      exact ⟨congrArg f hab, ih bs hrest⟩

theorem subOf_map (f : Char → Char) (n h : List Char) (hs : subOf n h = true) :
    subOf (n.map f) (h.map f) = true := by
  induction h with
  | nil =>
    cases n with
    | nil => rfl
    | cons a as => exact absurd hs (by simp [subOf, prefixB])
  | cons c t ih =>
    rw [show subOf n (c :: t) = (prefixB n (c :: t) || subOf n t) from rfl] at hs
    rcases Bool.or_eq_true_iff.mp hs with hpre | hsub
    · rw [List.map_cons,
        show subOf (n.map f) (f c :: t.map f) =
          (prefixB (n.map f) (f c :: t.map f) || subOf (n.map f) (t.map f)) from rfl]
      have := prefixB_map f n (c :: t) hpre
      rw [List.map_cons] at this
      simp [this]
    · rw [List.map_cons,
        show subOf (n.map f) (f c :: t.map f) =
          (prefixB (n.map f) (f c :: t.map f) || subOf (n.map f) (t.map f)) from rfl]
      simp [ih hsub]

/-- Case-insensitive containment follows from exact containment. -/
theorem jsIncludes_lower_of_includes (hay needle : String)
    (h : jsIncludes hay needle = true) :
    jsIncludes (jsLower hay) (jsLower needle) = true := by
  unfold jsIncludes jsLower at *
  exact subOf_map Char.toLower needle.data hay.data h

/-! ## Helper lemmas: the deterministic searches as clean filters -/

theorem basicSearch_pred_eq (q : String) (hq : q ≠ "") (st : Study) :
    ((st.title ≠ "" : Bool) && jsIncludes (jsLower st.title) (jsLower q) ||
     ((st.description ≠ "" : Bool) && jsIncludes (jsLower st.description) (jsLower q)) ||
     ((st.organization ≠ "" : Bool) && jsIncludes (jsLower st.organization) (jsLower q)) ||
     (st.categories.any fun cat => (cat ≠ "" : Bool) && jsIncludes (jsLower cat) (jsLower q)) ||
     (st.metadata.subjects.any fun subj => (subj ≠ "" : Bool) && jsIncludes (jsLower subj) (jsLower q))) =
      specFiveFieldMatch q st := by
  have hlq : jsLower q ≠ "" := fun hc => hq ((jsLower_empty_iff q).mp hc)
  unfold specFiveFieldMatch
  rw [guard_includes_elim st.title (jsLower q) hlq,
      guard_includes_elim st.description (jsLower q) hlq,
      guard_includes_elim st.organization (jsLower q) hlq,
      any_guard_elim st.categories (jsLower q) hlq,
      any_guard_elim st.metadata.subjects (jsLower q) hlq]
  exact bool_reorder5 _ _ _ _ _

theorem basicSearch_eq_filter (studies : List Study) (q : String) (hq : q ≠ "") :
    basicSearch studies q = studies.filter (specFiveFieldMatch q) := by
  unfold basicSearch
  rw [if_neg hq]
  exact List.filter_congr fun st _ => basicSearch_pred_eq q hq st

theorem performSimpleSearch_pred_eq (q : String) (hq : q ≠ "") (st : Study) :
    ((st.title ≠ "" : Bool) && jsIncludes (jsLower st.title) (jsLower q) ||
     ((st.description ≠ "" : Bool) && jsIncludes (jsLower st.description) (jsLower q)) ||
     ((st.organization ≠ "" : Bool) && jsIncludes (jsLower st.organization) (jsLower q)) ||
     (st.categories.any fun cat => jsIncludes (jsLower cat) (jsLower q))) =
      specFourFieldMatch q st := by
  have hlq : jsLower q ≠ "" := fun hc => hq ((jsLower_empty_iff q).mp hc)
  unfold specFourFieldMatch
  rw [guard_includes_elim st.title (jsLower q) hlq,
      guard_includes_elim st.description (jsLower q) hlq,
      guard_includes_elim st.organization (jsLower q) hlq]
  exact bool_reorder4 _ _ _ _

theorem performSimpleSearch_eq_filter (q : String) (studies appStudies : List Study)
    (hq : q ≠ "") (htrim : jsTrim q = q) (hne : studies ≠ []) :
    performSimpleSearch q studies appStudies = studies.filter (specFourFieldMatch q) := by
  unfold performSimpleSearch
  rw [if_neg hne, if_neg (by simp [hq, htrim])]
  exact List.filter_congr fun st _ => performSimpleSearch_pred_eq q hq st

theorem performSimpleSearch_self_eq_filter (q : String) (studies : List Study)
    (hq : q ≠ "") (htrim : jsTrim q = q) :
    performSimpleSearch q studies studies = studies.filter (specFourFieldMatch q) := by
  by_cases hs : studies = []
  · subst hs; simp [performSimpleSearch]
  · exact performSimpleSearch_eq_filter q studies studies hq htrim hs

/-! ## Helper lemmas: pipe splitting -/

theorem pipe_data : ("|" : String).data = ['|'] := rfl

theorem jsSplitPipe_no_pipe (s : String) (h : jsIncludes s "|" = false) :
    jsSplitPipe s = [s] := by
  unfold jsIncludes at h
  rw [pipe_data, subOf_single '|' s.data] at h
  unfold jsSplitPipe
  rw [splitCh_no_sep '|' s.data h]
  simp [mk_data_eq]

/-- The branchy string-categories coercion of part_002 equals the spec's
uniform split-trim-drop-empties rule with the `Uncategorized` default. -/
theorem normCategories002_str (s : String) :
    normCategories002 (.str s) =
      if specSplitPipe s = [] then ["Uncategorized"] else specSplitPipe s := by
  by_cases hs : s = ""
  · subst hs; rfl
  · unfold normCategories002
    have htruthy : (RawVal.str s).truthy = true := by simp [RawVal.truthy, hs]
    rw [htruthy]
    by_cases hp : jsIncludes s "|" = true
    · simp only [if_pos rfl, hp, if_true]
      rfl
    · have hpf : jsIncludes s "|" = false := by
        cases hb : jsIncludes s "|" with
        | true => exact absurd hb hp
        | false => rfl
      have hsplit : jsSplitPipe s = [s] := jsSplitPipe_no_pipe s hpf
      simp only [if_pos rfl, hpf, Bool.false_eq_true, if_false]
      unfold specSplitPipe
      rw [hsplit]
      by_cases ht : jsTrim s = ""
      · simp [ht]
      · simp [ht]

/-! ## Helper lemmas: normalizer invariants -/

theorem normCategories001_ne_nil (v : RawVal) : normCategories001 v ≠ [] := by
  unfold normCategories001
  set cats :=
    (if v.truthy then
      match v with
      | .list l => (l.filterMap keptStr).map jsTrim
      | .str s => [jsTrim s]
      | _ => []
    else ([] : List String)) with hc
  by_cases h : cats = []
  · simp [h]
  · simp [h]

theorem normCategories002_ne_nil (v : RawVal) : normCategories002 v ≠ [] := by
  unfold normCategories002
  set cats :=
    (if v.truthy then
      match v with
      | .list l => (l.filterMap keptStr).map jsTrim
      | .str s =>
        if jsIncludes s "|" then ((jsSplitPipe s).map jsTrim).filter (fun c => c ≠ "")
        else if jsTrim s = "" then [] else [jsTrim s]
      | _ => []
    else ([] : List String)) with hc
  by_cases h : cats = []
  · simp [h]
  · simp [h]

theorem mem_normalizeStudiesData (entries : List RawEntry) (st : Study)
    (h : st ∈ normalizeStudiesData entries) :
    ∃ r : RawRecord, st = normalizeRecord001 r := by
  unfold normalizeStudiesData at h
  obtain ⟨e, _, he⟩ := List.mem_filterMap.mp h
  cases e with
  | nullv => exact absurd he (by simp)
  | prim => exact absurd he (by simp)
  | obj r => exact ⟨r, (Option.some_inj.mp he).symm⟩

theorem mem_normalizeStudies (entries : List RawEntry) (st : Study)
    (h : st ∈ normalizeStudies entries) :
    ∃ (i : Nat) (r : RawRecord), st = normalizeRecord002 i r := by
  unfold normalizeStudies at h
  obtain ⟨ie, _, he⟩ := List.mem_filterMap.mp h
  cases hie : ie.2 with
  | nullv => rw [hie] at he; exact absurd he (by simp)
  | prim => rw [hie] at he; exact ⟨ie.1, blankRecord, (Option.some_inj.mp he).symm⟩
  | obj r => rw [hie] at he; exact ⟨ie.1, r, (Option.some_inj.mp he).symm⟩

/-! ## Helper lemmas: bootstrap loop -/

theorem bootstrapGo_allFail (oracle : Nat → LoadOutcome) (d : Nat)
    (h : ∀ i, failedOutcome (oracle i) = true) :
    ∀ n a, bootstrapGo oracle d a n = (n, (n - 1) * d, none) := by
  intro n
  induction n with
  | zero => intro a; rw [bootstrapGo]; simp
  | succ m ih =>
    intro a
    have hrec :
        (let r := bootstrapGo oracle d (a + 1) m
         ((r.1 + 1, (if 0 < m then d else 0) + r.2.1, r.2.2) : Nat × Nat × Option (List RawEntry))) =
          (m + 1, m * d, none) := by
      rw [ih (a + 1)]
      refine Prod.ext rfl (Prod.ext ?_ rfl)
      show (if 0 < m then d else 0) + (m - 1) * d = m * d
      cases m with
      | zero => simp
      | succ k => simp [Nat.succ_sub_one, Nat.succ_mul, Nat.add_comm]
    cases ho : oracle a with
    | err =>
      rw [show bootstrapGo oracle d a (m + 1) =
            (let r := bootstrapGo oracle d (a + 1) m
             (r.1 + 1, (if 0 < m then d else 0) + r.2.1, r.2.2)) from by
        rw [bootstrapGo, ho]]
      rw [hrec]
      simp [Nat.succ_sub_one]
    | nonArray =>
      rw [show bootstrapGo oracle d a (m + 1) =
            (let r := bootstrapGo oracle d (a + 1) m
             (r.1 + 1, (if 0 < m then d else 0) + r.2.1, r.2.2)) from by
        rw [bootstrapGo, ho]]
      rw [hrec]
      simp [Nat.succ_sub_one]
    | ok l =>
      have hl : l = [] := by
        have := h a
        rw [ho] at this
        simpa [failedOutcome] using this
      subst hl
      rw [show bootstrapGo oracle d a (m + 1) =
            (let r := bootstrapGo oracle d (a + 1) m
             (r.1 + 1, (if 0 < m then d else 0) + r.2.1, r.2.2)) from by
        rw [bootstrapGo, ho]; rfl]
      rw [hrec]
      simp [Nat.succ_sub_one]

theorem bootstrapGo_calls_pos (oracle : Nat → LoadOutcome) (d a n : Nat)
    (h : 0 < n) : 1 ≤ (bootstrapGo oracle d a n).1 := by
  cases n with
  | zero => exact absurd h (by simp)
  | succ m =>
    cases ho : oracle a with
    | err => rw [bootstrapGo, ho]; exact Nat.le_add_left 1 _
    | nonArray => rw [bootstrapGo, ho]; exact Nat.le_add_left 1 _
    | ok l =>
      rw [bootstrapGo, ho]
      by_cases hl : l = []
      · simp only [hl, if_pos rfl]; exact Nat.le_add_left 1 _
      · simp only [if_neg hl]; exact Nat.le_refl 1

/-- If two maps over the same list agree, the functions agree on every
member of the list. -/
theorem map_eq_map_of_mem {α β : Type} {g₁ g₂ : α → β} {l : List α}
    (h : l.map g₁ = l.map g₂) : ∀ a ∈ l, g₁ a = g₂ a := by
  induction l with
  | nil => intro a ha; cases ha
  | cons x t ih =>
    intro a ha
    simp only [List.map_cons, List.cons.injEq] at h
    rcases List.mem_cons.mp ha with rfl | ha
    · exact h.1
    · exact ih h.2 a ha

/-! ## Claim C1 -/

/-- C1 counterexample: with one study stored, `setStudies(null)` emits
`'error'` and records the validation error, but resets the canonical
collection to `[]` instead of leaving it as it was — the stored studies
before and after the failed call are not equal. -/
theorem setStudies_error_atomicity_counterexample :
    (setStudies stOneStudy JSArg.nullv).2 = ["error"] ∧
    (setStudies stOneStudy JSArg.nullv).1.error = some "Invalid studies data" ∧
    stOneStudy.studies = [studyLegacy] ∧
    (setStudies stOneStudy JSArg.nullv).1.studies = [] ∧
    ¬ (setStudies stOneStudy JSArg.nullv).1.studies = stOneStudy.studies := by
  refine ⟨rfl, rfl, rfl, rfl, ?_⟩
  decide

/-- C1 (corrected): for every store state and every non-array argument,
`setStudies` records a validation error, emits exactly `'error'`, and
resets the canonical collection to the empty list (so the collection is
preserved only when it was already empty); all other state fields are
untouched. -/
theorem setStudies_invalid_resets (st : AppStateModel) (x : JSArg)
    (h : x.isArr = false) :
    setStudies st x =
      ({ st with studies := [], error := some "Invalid studies data" },
       ["error"]) := by
  cases x with
  | arr l => exact absurd h (by simp [JSArg.isArr])
  | nullv => rfl
  | undef => rfl
  | str s => rfl
  | num n => rfl

/-- C1 witness: the corrected behavior at the concrete one-study store
and a `null` argument. -/
theorem setStudies_invalid_resets_witness :
    setStudies stOneStudy JSArg.nullv =
      ({ stOneStudy with studies := [], error := some "Invalid studies data" },
       ["error"]) :=
  setStudies_invalid_resets stOneStudy JSArg.nullv rfl

/-! ## Claim C10 -/

/-- C10 (confirmed): `toggleViewMode` returns the mode opposite to the
current one and stores it; two successive calls restore the entire store
state, and one call leaves studies, filters and the search query
unchanged. -/
theorem toggleViewMode_involution (st : AppStateModel)
    (h : st.viewMode = "card" ∨ st.viewMode = "list") :
    (toggleViewMode st).2.2 = (if st.viewMode = "card" then "list" else "card") ∧
    (toggleViewMode st).1.viewMode = (toggleViewMode st).2.2 ∧
    (toggleViewMode st).1.studies = st.studies ∧
    (toggleViewMode st).1.categoryFilters = st.categoryFilters ∧
    (toggleViewMode st).1.subjectFilters = st.subjectFilters ∧
    (toggleViewMode st).1.searchQuery = st.searchQuery ∧
    (toggleViewMode (toggleViewMode st).1).1 = st := by
  obtain ⟨studies, cats, subs, q, vm, init, load, err⟩ := st
  rcases h with h | h <;> (simp only at h; subst h) <;>
    exact ⟨rfl, rfl, rfl, rfl, rfl, rfl, rfl⟩

/-- C10 witness: the toggle laws at a concrete store in card mode. -/
theorem toggleViewMode_involution_witness :
    (toggleViewMode stOneStudy).2.2 =
      (if stOneStudy.viewMode = "card" then "list" else "card") ∧
    (toggleViewMode stOneStudy).1.viewMode = (toggleViewMode stOneStudy).2.2 ∧
    (toggleViewMode stOneStudy).1.studies = stOneStudy.studies ∧
    (toggleViewMode stOneStudy).1.categoryFilters = stOneStudy.categoryFilters ∧
    (toggleViewMode stOneStudy).1.subjectFilters = stOneStudy.subjectFilters ∧
    (toggleViewMode stOneStudy).1.searchQuery = stOneStudy.searchQuery ∧
    (toggleViewMode (toggleViewMode stOneStudy).1).1 = stOneStudy :=
  toggleViewMode_involution stOneStudy (Or.inl rfl)

/-! ## Claim C5 -/

/-- C5 (confirmed): when every loader attempt fails (rejects, resolves
with a non-array, or resolves with an empty array), one
`bootstrapApplication()` run calls the loader exactly `MAX_RETRIES`
times, waits `RETRY_DELAY` between consecutive attempts for a total of
`(MAX_RETRIES - 1) * RETRY_DELAY`, and resolves to `[]` (the embedding
is a total function: every loader rejection is caught, so the run never
throws or rejects). -/
theorem bootstrap_retry_exhaustion (oracle : Nat → LoadOutcome)
    (h : ∀ i, failedOutcome (oracle i) = true) :
    bootstrapApplication oracle =
      { result := [], loaderCalls := MAX_RETRIES,
        waitedMs := (MAX_RETRIES - 1) * RETRY_DELAY } := by
  unfold bootstrapApplication
  rw [bootstrapGo_allFail oracle RETRY_DELAY h MAX_RETRIES 0]

/-- C5 witness: the always-rejecting loader gives exactly 3 calls,
2000ms of waiting, and the empty result. -/
theorem bootstrap_retry_exhaustion_witness :
    bootstrapApplication failOracle =
      { result := [], loaderCalls := 3, waitedMs := 2000 } :=
  bootstrap_retry_exhaustion failOracle (fun _ => rfl)

/-! ## Claim C6 -/

/-- C6 counterexample: `bootstrapApplication` has no module-level
in-flight promise, so a caller that invokes it while a first run is
pending re-executes the entire body (`bootstrapSecondCall`): against the
always-failing loader the second caller performs 3 loader calls of its
own — not the 0 that awaiting the in-flight result would give — for 6
loader invocations in total instead of 3. -/
theorem bootstrap_single_flight_counterexample :
    (bootstrapSecondCall failOracle).loaderCalls = 3 ∧
    ¬ (bootstrapSecondCall failOracle).loaderCalls = 0 ∧
    (bootstrapApplication failOracle).loaderCalls +
      (bootstrapSecondCall failOracle).loaderCalls = 6 := by
  refine ⟨by decide, by decide, by decide⟩

/-- C6 (corrected): only the index build is single-flight — a call to
`initializeSearchEngine` made while a build promise is in flight returns
that same promise and starts no new build — whereas
`bootstrapApplication` has no in-flight guard: every call, including one
made while a previous run is pending, performs at least one loader
invocation of its own (a duplicate Loader run). -/
theorem single_flight_guards_amended (st : SearchEngineState) (p : Nat)
    (studies : List Study) (freshId : Nat) (oracle : Nat → LoadOutcome)
    (h : st.fuseLoadingPromise = some p) :
    initializeSearchEngine st studies freshId = (st, .promise p) ∧
    1 ≤ (bootstrapApplication oracle).loaderCalls := by
  constructor
  · unfold initializeSearchEngine
    rw [h]
  · unfold bootstrapApplication
    have hpos := bootstrapGo_calls_pos oracle RETRY_DELAY 0 MAX_RETRIES (by decide)
    rcases hgo : bootstrapGo oracle RETRY_DELAY 0 MAX_RETRIES with ⟨c, w, r⟩
    rw [hgo] at hpos
    cases r with
    | none => simpa using hpos
    | some entries => simpa using hpos

/-- C6 witness: the corrected behavior at a concrete in-flight module
state and the always-failing loader. -/
theorem single_flight_guards_amended_witness :
    initializeSearchEngine engineInFlight [] 9 = (engineInFlight, .promise 7) ∧
    1 ≤ (bootstrapApplication failOracle).loaderCalls :=
  single_flight_guards_amended engineInFlight 7 [] 9 failOracle rfl

/-! ## Claim C3 -/

/-- The bootstrap-side normalizer wraps a truthy string as the
one-element list of its trimmed self (no pipe splitting). -/
theorem normCategories001_str (s : String) :
    normCategories001 (.str s) =
      if s = "" then ["Uncategorized"] else [jsTrim s] := by
  by_cases hs : s = ""
  · subst hs; rfl
  · unfold normCategories001
    have htruthy : (RawVal.str s).truthy = true := by simp [RawVal.truthy, hs]
    rw [htruthy]
    simp [hs]

/-- C3 counterexample: a raw record whose categories field is the string
`"A|B"`, normalized by part_001 `normalizeStudiesData`, yields the
single-element list `["A|B"]` — not the pipe-split `["A", "B"]` the
claim requires of the Normalizer. -/
theorem normalize_pipe_split_counterexample :
    (normalizeStudiesData [RawEntry.obj recPipe]).map Study.categories = [["A|B"]] ∧
    ¬ ((["A|B"] : List String) = ["A", "B"]) := by
  refine ⟨by decide, by decide⟩

/-- C3 (corrected): the two normalizer copies diverge on string
categories. The loader-side `normalizeStudies` (part_002) implements the
claimed rule — split on the pipe delimiter, trim each piece, drop empty
pieces, substituting `["Uncategorized"]` when nothing survives — while
the bootstrap-side `normalizeStudiesData` (part_001) wraps the trimmed
string as a single element without splitting. -/
theorem normalize_pipe_split_amended (s : String) (r : RawRecord)
    (h : r.categories = RawVal.str s) :
    (normalizeStudies [RawEntry.obj r]).map Study.categories =
      [if specSplitPipe s = [] then ["Uncategorized"] else specSplitPipe s] ∧
    (normalizeStudiesData [RawEntry.obj r]).map Study.categories =
      [if s = "" then ["Uncategorized"] else [jsTrim s]] := by
  constructor
  · show [(normalizeRecord002 0 r).categories] = _
    show [normCategories002 r.categories] = _
    rw [h, normCategories002_str s]
  · show [(normalizeRecord001 r).categories] = _
    show [normCategories001 r.categories] = _
    rw [h, normCategories001_str s]

/-- C3 witness: the corrected statement at the concrete record with
categories `"A|B"`. -/
theorem normalize_pipe_split_amended_witness :
    (normalizeStudies [RawEntry.obj recPipe]).map Study.categories =
      [if specSplitPipe "A|B" = [] then ["Uncategorized"] else specSplitPipe "A|B"] ∧
    (normalizeStudiesData [RawEntry.obj recPipe]).map Study.categories =
      [if ("A|B" : String) = "" then ["Uncategorized"] else [jsTrim "A|B"]] :=
  normalize_pipe_split_amended "A|B" recPipe rfl

/-! ## Claim C4 -/

/-- C4 (confirmed): every `Study` produced by either normalizer copy has
a categories list of length at least 1, and a record with no categories
field at all normalizes to `["Uncategorized"]` in both copies. -/
theorem normalizer_categories_nonempty (entries : List RawEntry) :
    (∀ st, st ∈ normalizeStudiesData entries → 1 ≤ st.categories.length) ∧
    (∀ st, st ∈ normalizeStudies entries → 1 ≤ st.categories.length) ∧
    (∀ r : RawRecord, r.categories = RawVal.undef →
      (normalizeStudiesData [RawEntry.obj r]).map Study.categories =
        [["Uncategorized"]] ∧
      (normalizeStudies [RawEntry.obj r]).map Study.categories =
        [["Uncategorized"]]) := by
  refine ⟨?_, ?_, ?_⟩
  · intro st hmem
    obtain ⟨r, rfl⟩ := mem_normalizeStudiesData entries st hmem
    exact List.length_pos.mpr (normCategories001_ne_nil r.categories)
  · intro st hmem
    obtain ⟨i, r, rfl⟩ := mem_normalizeStudies entries st hmem
    exact List.length_pos.mpr (normCategories002_ne_nil r.categories)
  · intro r h
    constructor
    · show [(normalizeRecord001 r).categories] = _
      show [normCategories001 r.categories] = _
      rw [h]; rfl
    · show [(normalizeRecord002 0 r).categories] = _
      show [normCategories002 r.categories] = _
      rw [h]; rfl

/-- C4 witness: the invariant and the `Uncategorized` default at the
concrete record that lacks a categories field. -/
theorem normalizer_categories_nonempty_witness :
    1 ≤ (normalizeRecord001 recNoCat).categories.length ∧
    1 ≤ (normalizeRecord002 0 recNoCat).categories.length ∧
    ((normalizeStudiesData [RawEntry.obj recNoCat]).map Study.categories =
       [["Uncategorized"]] ∧
     (normalizeStudies [RawEntry.obj recNoCat]).map Study.categories =
       [["Uncategorized"]]) :=
  ⟨(normalizer_categories_nonempty [RawEntry.obj recNoCat]).1 _ (by decide),
   (normalizer_categories_nonempty [RawEntry.obj recNoCat]).2.1 _ (by decide),
   (normalizer_categories_nonempty []).2.2 recNoCat rfl⟩

/-! ## Claim C7 -/

/-- C7 counterexample: `studySubj` matches the query `"math"` only in
`metadata.subjects`; the claim's five-field predicate admits it, but the
`performSimpleSearch` fallback of search-engine.js returns the empty
list — it never examines `metadata.subjects`. -/
theorem fallback_subjects_counterexample :
    specFiveFieldMatch "math" studySubj = true ∧
    performSimpleSearch "math" [studySubj] [] = [] ∧
    ¬ (performSimpleSearch "math" [studySubj] [] =
        List.filter (specFiveFieldMatch "math") [studySubj]) := by
  refine ⟨by decide, by decide, by decide⟩

/-- C7 (corrected): when the fuzzy index is unavailable, the utils.js
fallback `basicSearch` returns exactly the studies with a
case-insensitive substring match in one of the five weighted fields, in
original collection order, but the search-engine.js fallback
`performSimpleSearch` does the same over only four fields — title,
description, organization, categories — never `metadata.subjects`. In
both fallbacks, a query that occurs verbatim in a study's title always
includes that study. -/
theorem fallback_search_amended (q : String) (studies appStudies : List Study)
    (hq : q ≠ "") (htrim : jsTrim q = q) (hne : studies ≠ []) :
    basicSearch studies q = studies.filter (specFiveFieldMatch q) ∧
    performSimpleSearch q studies appStudies =
      studies.filter (specFourFieldMatch q) ∧
    (∀ st, st ∈ studies → jsIncludes st.title q = true →
      st ∈ basicSearch studies q ∧
      st ∈ performSimpleSearch q studies appStudies) := by
  refine ⟨basicSearch_eq_filter studies q hq,
          performSimpleSearch_eq_filter q studies appStudies hq htrim hne, ?_⟩
  intro st hmem htitle
  have hlow : jsIncludes (jsLower st.title) (jsLower q) = true :=
    jsIncludes_lower_of_includes st.title q htitle
  constructor
  · rw [basicSearch_eq_filter studies q hq]
    refine List.mem_filter.mpr ⟨hmem, ?_⟩
    unfold specFiveFieldMatch
    simp [hlow]
  · rw [performSimpleSearch_eq_filter q studies appStudies hq htrim hne]
    refine List.mem_filter.mpr ⟨hmem, ?_⟩
    unfold specFourFieldMatch
    simp [hlow]

/-- C7 witness: the corrected statement at a concrete one-study
collection and the query `"Jobs"` (an exact substring of the study's
title up to case). -/
theorem fallback_search_amended_witness :
    basicSearch [studyLegacy] "Jobs" =
      List.filter (specFiveFieldMatch "Jobs") [studyLegacy] ∧
    performSimpleSearch "Jobs" [studyLegacy] [] =
      List.filter (specFourFieldMatch "Jobs") [studyLegacy] ∧
    (studyLegacy ∈ basicSearch [studyLegacy] "Jobs" ∧
     studyLegacy ∈ performSimpleSearch "Jobs" [studyLegacy] []) :=
  ⟨(fallback_search_amended "Jobs" [studyLegacy] [] (by decide) (by decide)
      (by decide)).1,
   (fallback_search_amended "Jobs" [studyLegacy] [] (by decide) (by decide)
      (by decide)).2.1,
   (fallback_search_amended "Jobs" [studyLegacy] [] (by decide) (by decide)
      (by decide)).2.2 studyLegacy (by decide) (by decide)⟩

/-! ## Claim C8 -/

/-- C8 counterexample: `getStudies()` is the spread copy
`[...this._studies]` — a fresh array of the same study references.
Mutating the study object behind reference 0, obtained from the getter's
result, changes the state observed by a subsequent `getStudies()`
call. -/
theorem getter_defensive_copy_counterexample :
    (0 ∈ getStudiesRefs heapStore0) ∧
    ¬ (observeStudies (writeThroughRef heapStore0 0 retitle) =
        observeStudies heapStore0) := by
  refine ⟨by decide, by decide⟩

/-- C8 (corrected): the getters return shallow copies. Mutating the
array returned by a getter never changes the store (its reference list
and every non-study field are untouched by a caller-side write), and the
string-valued getters return immutable values; but mutating a study
object nested inside `getStudies()`'s result is aliased into the store:
a subsequent read observes the write. -/
theorem getter_shallow_copy_amended (s : StudyHeapStore) (r : Nat)
    (f : Study → Study) (hr : r ∈ getStudiesRefs s)
    (hf : f (s.heap r) ≠ s.heap r) :
    (writeThroughRef s r f).studyRefs = s.studyRefs ∧
    (writeThroughRef s r f).categoryFilters = s.categoryFilters ∧
    (writeThroughRef s r f).subjectFilters = s.subjectFilters ∧
    (writeThroughRef s r f).searchQuery = s.searchQuery ∧
    (writeThroughRef s r f).viewMode = s.viewMode ∧
    observeStudies (writeThroughRef s r f) =
      s.studyRefs.map (fun n => if n = r then f (s.heap n) else s.heap n) ∧
    ¬ (observeStudies (writeThroughRef s r f) = observeStudies s) := by
  refine ⟨rfl, rfl, rfl, rfl, rfl, rfl, ?_⟩
  intro heq
  have hpt := map_eq_map_of_mem heq r hr
  have hfr : f (s.heap r) = s.heap r := by
    simpa [writeThroughRef] using hpt
  exact hf hfr

/-- C8 witness: the corrected statement at the concrete one-study heap
store and the concrete title mutation. -/
theorem getter_shallow_copy_amended_witness :
    (writeThroughRef heapStore0 0 retitle).studyRefs = heapStore0.studyRefs ∧
    (writeThroughRef heapStore0 0 retitle).categoryFilters =
      heapStore0.categoryFilters ∧
    (writeThroughRef heapStore0 0 retitle).subjectFilters =
      heapStore0.subjectFilters ∧
    (writeThroughRef heapStore0 0 retitle).searchQuery =
      heapStore0.searchQuery ∧
    (writeThroughRef heapStore0 0 retitle).viewMode = heapStore0.viewMode ∧
    observeStudies (writeThroughRef heapStore0 0 retitle) =
      heapStore0.studyRefs.map
        (fun n => if n = 0 then retitle (heapStore0.heap n) else heapStore0.heap n) ∧
    ¬ (observeStudies (writeThroughRef heapStore0 0 retitle) =
        observeStudies heapStore0) :=
  getter_shallow_copy_amended heapStore0 0 retitle (by decide) (by decide)

/-! ## Claim C9 -/

/-- C9 (confirmed): `filterStudies` with the active filter set
`{"AI Use and Perceptions"}` includes every study whose only category is
the legacy string `"Current AI Use and Perceptions in PK 12 &
HigherEd"`; in general, for each of the four canonical labels, a study
one of whose categories matches the label exactly or through the label's
fixed legacy/keyword alias conditions passes the filter. -/
theorem category_alias_resolution (studies : List Study) (st : Study)
    (hmem : st ∈ studies) :
    (st.categories = ["Current AI Use and Perceptions in PK 12 & HigherEd"] →
      st ∈ filterStudies studies ["AI Use and Perceptions"]) ∧
    (∀ fc, fc ∈ canonicalLabels → ∀ sc, sc ∈ st.categories →
      (sc = fc ∨ labelAliasMatch fc sc = true) →
      st ∈ filterStudies studies [fc]) := by
  have hgen : ∀ (fc : String), ∀ sc ∈ st.categories,
      (sc = fc ∨ labelAliasMatch fc sc = true) →
      st ∈ filterStudies studies [fc] := by
    intro fc sc hsc hmatch
    unfold filterStudies
    rw [if_neg (by simp)]
    refine List.mem_filter.mpr ⟨hmem, ?_⟩
    refine List.any_eq_true.mpr ⟨sc, hsc, ?_⟩
    rcases hmatch with h | h
    · subst h; simp
    · simp [h]
  constructor
  · intro hcat
    refine hgen "AI Use and Perceptions"
      "Current AI Use and Perceptions in PK 12 & HigherEd" ?_ (Or.inr (by decide))
    rw [hcat]; exact List.mem_singleton.mpr rfl
  · intro fc _ sc hsc hmatch
    exact hgen fc sc hsc hmatch

/-- C9 witness: the legacy-string study passes the canonical filter, and
a study categorized `"Workforce Trends"` passes its own canonical
filter. -/
theorem category_alias_resolution_witness :
    studyLegacy ∈ filterStudies [studyLegacy] ["AI Use and Perceptions"] ∧
    studySubj ∈ filterStudies [studySubj] ["Workforce Trends"] :=
  ⟨(category_alias_resolution [studyLegacy] studyLegacy (by decide)).1 rfl,
   (category_alias_resolution [studySubj] studySubj (by decide)).2
     "Workforce Trends" (by decide) "Workforce Trends" (by decide)
     (Or.inl rfl)⟩

/-! ## Claim C2 -/

end EduStudies
